import Mathlib

/-!
Verification of the acquisition-and-deduplication pipeline of the
just-memes-telegram bot (`src/modules/telegrambot.py`,
`src/modules/fingerprinter.py`, `src/modules/reddit.py`).

Shallow embedding conventions:
* Python strings are `List Char`; `None`-able strings are `Option (List Char)`.
* Perceptual hashes (`imagehash.ImageHash`, a fixed-size bit matrix) are
  `List Bool`; `abs(h1 - h2)` of the imagehash library counts the number of
  differing bits (`numpy.count_nonzero(a != b)` over the flattened bit
  arrays), i.e. the Hamming distance, embedded here as `hammingDistance`.
* Instants are integer seconds (`Int`); `timedelta.seconds` of a
  non-negative whole-second timedelta is `· % 86400`.
* The Telegram/Mongo/network layers are oracles: a `PipelineEnv` records,
  per post, what `downloadMedia` / `fingerprint` / the gif size probe would
  return.
-/

/-- Convert a Lean string literal to the `List Char` representation used
throughout the embedding. -/
def chars (s : String) : List Char := s.data

/-- A perceptual hash: the flattened bit matrix of an `imagehash.ImageHash`. -/
abbrev ImgHash := List Bool

/-- Embedding of `abs(h1 - h2)` of the imagehash library: the number of bit positions where
the two (equal-sized) hashes differ. -/
def hammingDistance (h1 h2 : ImgHash) : Nat :=
  (List.zipWith bne h1 h2).count true

/-- Model of `TelegramBot._postHashValid` (telegrambot.py lines 237-253): the post hash
is valid unless `abs(fingerprint_hash - x) < hash_threshold` for some old
hash `x`. -/
def postHashValid (hash_threshold : Nat) (old_hashes : List ImgHash)
    (fingerprint_hash : ImgHash) : Bool :=
  if old_hashes.any (fun x => decide (hammingDistance fingerprint_hash x < hash_threshold))
  then false
  else true

/-- Python's substring operator `w in t` on strings. -/
def inStr (w t : List Char) : Bool := decide (w <:+: t)

/-- Model of `TelegramBot._postTextValid` (telegrambot.py lines 255-271): `None` or
empty text is valid; otherwise the text is invalid iff some word of
`words_to_skip` is a substring of it (Python `t in text`, case-sensitive). -/
def postTextValid (words_to_skip : List (List Char)) (text : Option (List Char)) : Bool :=
  match text with
  | none => true
  | some t =>
    if t.isEmpty then true
    else if words_to_skip.any (fun w => inStr w t) then false
    else true

/-- The inline title check of `_botPreloadmemeRoutine` (telegrambot.py line
410): `any(s in post.title for s in self._settings["words_to_skip"])`. -/
def titleHasSkipWords (words_to_skip : List (List Char)) (title : List Char) : Bool :=
  words_to_skip.any (fun s => inStr s title)

/-- Case-insensitive substring, written from the spec's words for claim C2
("any blocklist term is a case-insensitive substring of the title"); used
only to compare the spec against `postTextValid`/`titleHasSkipWords`. -/
def ciSubstr (w t : List Char) : Bool :=
  inStr (w.map Char.toLower) (t.map Char.toLower)

/-! ### Fingerprinter (`src/modules/fingerprinter.py`) -/

/-- Python's whitespace set used by `str.strip()` for ASCII text:
`' \t\n\r\x0b\x0c'`. -/
def pyIsSpace (c : Char) : Bool :=
  c = ' ' || c = '\t' || c = '\n' || c = '\r' || c = '\x0b' || c = '\x0c'

/-- Membership in Python's `string.printable`: the printable ASCII range
`0x20..0x7e` (digits, letters, punctuation, space) plus the whitespace
controls `\t\n\r\x0b\x0c`. -/
def pyPrintable (c : Char) : Bool :=
  (decide (0x20 ≤ c.toNat) && decide (c.toNat ≤ 0x7e))
    || c = '\t' || c = '\n' || c = '\r' || c = '\x0b' || c = '\x0c'

/-- Python `str.strip()`: drop leading and trailing whitespace. -/
def pyStrip (s : List Char) : List Char :=
  ((s.dropWhile pyIsSpace).reverse.dropWhile pyIsSpace).reverse

/-- Python `clean.replace("  ", " ")`: replace non-overlapping occurrences of
two consecutive spaces by one space, scanning left to right. -/
def replaceDoubleSpace : List Char → List Char
  | [] => []
  | [c] => [c]
  | c1 :: c2 :: rest =>
    if c1 = ' ' && c2 = ' ' then ' ' :: replaceDoubleSpace rest
    else c1 :: replaceDoubleSpace (c2 :: rest)

/-- Python `clean.replace(old, " ")` for a single-character pattern `old`. -/
def replaceChar (old : Char) (s : List Char) : List Char :=
  s.map (fun c => if c = old then ' ' else c)

/-- Python `"  " in s`: some two consecutive characters are both spaces. -/
def hasDoubleSpace : List Char → Bool
  | c1 :: c2 :: rest => (c1 = ' ' && c2 = ' ') || hasDoubleSpace (c2 :: rest)
  | _ => false

/-- The `while any(r in clean for r in to_replace)` guard of
`Fingerprinter._cleanText` with `to_replace = {"  ", "\n", "\t"}`. -/
def cleanGuard (s : List Char) : Bool :=
  hasDoubleSpace s || s.contains '\n' || s.contains '\t'

/-- One iteration of the `for r in to_replace: clean = clean.replace(r, " ")`
body. Python iterates the literal *set* in an unspecified order; the order is
fixed here ("  ", then "\n", then "\t") — the properties proved below depend
only on the loop's exit condition, which is order-independent. -/
def cleanPass (s : List Char) : List Char :=
  replaceChar '\t' (replaceChar '\n' (replaceDoubleSpace s))

/-- Termination measure for the replacement loop: each `cleanPass` on a string
satisfying `cleanGuard` strictly decreases it (`cleanMeasure_cleanPass_lt`). -/
def cleanMeasure (s : List Char) : Nat :=
  s.length + s.count '\n' + s.count '\t'

/-- The replacement `while` loop of `_cleanText`, run for `fuel` iterations at
most; `cleanMeasure s + 1` iterations are proved sufficient to reach the exit
condition (`cleanGuard_cleanLoop`), so `cleanLoop (cleanMeasure s + 1) s` is
the loop's result. -/
def cleanLoop : Nat → List Char → List Char
  | 0, s => s
  | fuel + 1, s => if cleanGuard s then cleanLoop fuel (cleanPass s) else s

/-- Model of `Fingerprinter._cleanText` (fingerprinter.py lines 34-49):
`text.strip().lower()`, then the whitespace-replacement loop, then keep only
`string.printable` characters. Python's `str.lower` is modelled by
`Char.toLower` (ASCII case mapping); every non-ASCII character is removed by
the final printable filter either way. -/
def cleanText (text : List Char) : List Char :=
  let lowered := (pyStrip text).map Char.toLower
  (cleanLoop (cleanMeasure lowered + 1) lowered).filter pyPrintable

/-- Two consecutive whitespace characters somewhere in the string — the
property claim C8 says the output never has. -/
def hasWhitespaceRun : List Char → Bool
  | c1 :: c2 :: rest => (pyIsSpace c1 && pyIsSpace c2) || hasWhitespaceRun (c2 :: rest)
  | _ => false

/-- Model of `modules.data.Fingerprint`. The Python dataclass also carries `hash_str`
(`str(hash)`, a display rendering of the hash); no claim depends on it and it
is omitted. `caption` is `None` when OCR was skipped, `hash` is `None` when
hashing was skipped. -/
structure Fingerprint where
  caption : Option (List Char)
  hash : Option ImgHash
  url : List Char
  timestamp : Nat
deriving DecidableEq

/-- Model of `Fingerprinter.fingerprint` (fingerprinter.py lines 51-105), for an image
that was opened successfully (the claim C3 premise): the `try` block computes
the hash (if `hash` is set) and then the OCR caption (if `ocr` is set), and any
exception in either makes the whole call return `None`. `dhashResult` /
`ocrResult` are the outcomes of `imagehash.dhash` / `pytesseract.image_to_string`:
`.error ()` means the library call raised. The OCR text is normalized with
`cleanText` before being stored. -/
def fingerprint (hashFlag ocr : Bool) (dhashResult : Except Unit ImgHash)
    (ocrResult : Except Unit (List Char)) (img_url : List Char) (timestamp : Nat) :
    Option Fingerprint :=
  let tryBlock : Except Unit (Option ImgHash × Option (List Char)) := do
    let img_hash ← if hashFlag then do
        let v ← dhashResult
        pure (some v)
      else pure none
    let img_caption ← if ocr then do
        let raw_caption ← ocrResult
        pure (some (cleanText raw_caption))
      else pure none
    pure (img_hash, img_caption)
  match tryBlock with
  | .error _ => none
  | .ok (img_hash, img_caption) => some ⟨img_caption, img_hash, img_url, timestamp⟩

/-! ### Candidate pipeline (`src/modules/telegrambot.py`, `src/modules/reddit.py`) -/

/-- Model of `modules.data.Post`. `title` can be `None` in Python (`submission.title or
None`); the preload loop applies `s in post.title` to it, so it is modelled as
a plain string. -/
structure Post where
  url : List Char
  id : Option (List Char) := none
  subreddit : Option (List Char) := none
  title : List Char := []
  score : Int := 0
  timestamp : Nat := 0
  video : Bool := false
  path : Option (List Char) := none
deriving DecidableEq

/-- Model of `TelegramBot._filterOldPosts` (telegrambot.py lines 201-214): drop posts
whose id is among the stored ids or whose url is among the stored urls. Stored
ids may be `null` (posts injected by the queue command have no id). -/
def filterOldPosts (old_ids : List (Option (List Char))) (old_urls : List (List Char))
    (posts : List Post) : List Post :=
  posts.filter (fun p => !old_ids.contains p.id && !old_urls.contains p.url)

/-- Model of `TelegramBot._checkGifSize` (telegrambot.py lines 216-235) applied to an
already-probed size (`_getFileSize` is a network call, its result in MB is the
oracle input; sizes are modelled as integers — no claim depends on this
check). -/
def checkGifSize (max_gif_size size : Int) : Bool :=
  if size > max_gif_size then false
  else if size ≤ 0 then false
  else true

/-- The `".gif" in post.url` test of the preload loop. -/
def isGifUrl (url : List Char) : Bool := inStr (chars ".gif") url

/-- The settings fields of `self._settings` that the preload loop reads. -/
structure BotSettings where
  words_to_skip : List (List Char)
  hash_threshold : Nat
  ocr : Bool
  max_gif_size : Int

/-- Oracles for the external collaborators of the pipeline: what
`MediaDownloader.downloadMedia` (`(post_path, preview_path)`, `none` = falsy
path / failed download), `Fingerprinter.fingerprint` (hash and caption of a
successful fingerprint; the pipeline always requests both), the gif size probe
and `MediaDownloader.isVideo` would return. -/
structure PipelineEnv where
  downloadMedia : Post → Option (List Char × List Char)
  fingerprintOf : Post → Option (ImgHash × Option (List Char))
  gifSize : Post → Int
  isVideo : List Char → Bool

/-- The mutable state the routines touch, plus the effect traces the claims
are about: `db_posts` / `db_fingerprints` are the documents appended to the
history store (`Database.addData`), `downloads` the posts handed to
`MediaDownloader.downloadMedia`, `fetch_count` the number of `Reddit.fetch`
calls. -/
structure PipelineState where
  queue : List Post
  db_posts : List Post
  db_fingerprints : List (ImgHash × Option (List Char))
  downloads : List Post
  fetch_count : Nat
deriving DecidableEq

/-- One iteration of the `for post in to_check` loop of
`TelegramBot._botPreloadmemeRoutine` (telegrambot.py lines 403-457): record
the post, reject on title blocklist, reject oversized gifs, download, reject
on failed download, fingerprint, reject on failed fingerprint, set the path,
record the fingerprint, reject on near-duplicate hash, reject (when OCR is
enabled) on blocked caption, else enqueue. Returns the new state and whether
the post was accepted (`break`). -/
def checkPost (env : PipelineEnv) (st : BotSettings) (old_hashes : List ImgHash)
    (s : PipelineState) (post : Post) : PipelineState × Bool :=
  let s := { s with db_posts := s.db_posts ++ [post] }
  if titleHasSkipWords st.words_to_skip post.title then (s, false)
  else if isGifUrl post.url && !checkGifSize st.max_gif_size (env.gifSize post) then
    (s, false)
  else
    let s := { s with downloads := s.downloads ++ [post] }
    match env.downloadMedia post with
    | none => (s, false)
    | some (post_path, _preview_path) =>
      match env.fingerprintOf post with
      | none => (s, false)
      | some (fhash, fcaption) =>
        let post := { post with path := some post_path }
        let s := { s with db_fingerprints := s.db_fingerprints ++ [(fhash, fcaption)] }
        if !postHashValid st.hash_threshold old_hashes fhash then (s, false)
        else if st.ocr && !postTextValid st.words_to_skip fcaption then (s, false)
        else ({ s with queue := s.queue ++ [post] }, true)

/-- The `for post in to_check` loop: process candidates in order, stopping at
the first accepted one (`break`). -/
def processPosts (env : PipelineEnv) (st : BotSettings) (old_hashes : List ImgHash) :
    List Post → PipelineState → PipelineState
  | [], s => s
  | p :: rest, s =>
    match checkPost env st old_hashes s p with
    | (s', true) => s'
    | (s', false) => processPosts env st old_hashes rest s'

/-- Model of `TelegramBot._botPreloadmemeRoutine` (telegrambot.py lines 374-468): if the
queue already holds a post, return immediately; otherwise fetch candidates
(`fetched` is what `Reddit.fetch` returns, already sorted by descending
score), filter out already-seen ids/urls, load the old hashes once, and run
the candidate loop. `old_ids`, `old_urls`, `old_hashes` are the history-store
contents at the time of the call. -/
def botPreloadmemeRoutine (env : PipelineEnv) (st : BotSettings) (fetched : List Post)
    (old_ids : List (Option (List Char))) (old_urls : List (List Char))
    (old_hashes : List ImgHash) (s : PipelineState) : PipelineState :=
  if s.queue.length > 0 then s
  else
    let s := { s with fetch_count := s.fetch_count + 1 }
    processPosts env st old_hashes (filterOldPosts old_ids old_urls fetched) s

/-- One iteration of the `for url in context.args` loop of
`TelegramBot._botQueueCommand` (telegrambot.py lines 636-678): build a `Post`
from the bare url, download it, fingerprint it, record post and fingerprint,
append to the queue. Returns the new state and 1 if the image was added. -/
def queueCommandStep (env : PipelineEnv) (s : PipelineState) (url : List Char) :
    PipelineState × Nat :=
  let post : Post := { url := url, video := env.isVideo url }
  let s := { s with downloads := s.downloads ++ [post] }
  match env.downloadMedia post with
  | none => (s, 0)
  | some (post_path, _preview_path) =>
    match env.fingerprintOf post with
    | none => (s, 0)
    | some (fhash, fcaption) =>
      let post := { post with path := some post_path }
      let s := { s with db_posts := s.db_posts ++ [post],
                        db_fingerprints := s.db_fingerprints ++ [(fhash, fcaption)] }
      ({ s with queue := s.queue ++ [post] }, 1)

/-- The argument loop of `TelegramBot._botQueueCommand` (telegrambot.py lines
607-690): process every url, accumulating `image_count`. -/
def botQueueCommand (env : PipelineEnv) : List (List Char) → PipelineState →
    PipelineState × Nat
  | [], s => (s, 0)
  | url :: rest, s =>
    let step := queueCommandStep env s url
    let cont := botQueueCommand env rest step.1
    (cont.1, step.2 + cont.2)

/-- Model of `TelegramBot._botSendmemeRoutine` (telegrambot.py lines 470-498): on an
empty queue abort; otherwise `pop(0)` the head, send it, and `deleteFile` its
path. Returns (remaining queue, sent post, path handed to `deleteFile`). -/
def botSendmemeRoutine (queue : List Post) :
    List Post × Option Post × Option (List Char) :=
  match queue with
  | [] => ([], none, none)
  | post :: rest => (rest, some post, post.path)

/-! ### Scheduler (`src/modules/telegrambot.py` lines 97-156, 273-309) -/

/-- Model of `TelegramBot._getSecondsBetweenPosts`: `int(24 * 60 * 60 /
posts_per_day)` (float division truncated, i.e. `86400 / ppd` rounded toward
zero). -/
def getSecondsBetweenPosts (posts_per_day : Nat) : Nat := 86400 / posts_per_day

/-- Model of `timedelta.seconds` of a non-negative whole-second timedelta: the
seconds-within-a-day component. -/
def tdSeconds (t : Int) : Int := t % 86400

/-- The `while next_preload <= now: next_preload += seconds_between` loop of
`_calculatePreload`, run for at most `fuel` steps (`none` = the loop has not
exited after `fuel` steps; the code itself has no bound and can loop
forever when `seconds_between = 0`). -/
def advanceLoop (seconds_between : Nat) (now : Int) : Nat → Int → Option Int
  | 0, _ => none
  | fuel + 1, next =>
    if next ≤ now then advanceLoop seconds_between now fuel (next + seconds_between)
    else some next

/-- Model of `TelegramBot._calculatePreload` (telegrambot.py lines 131-156): start from
local midnight plus `start_delay` minus `preload_time`, advance by
`seconds_between` until strictly after `now`, and return
`((next_preload - now).seconds, next_preload)`. `midnight` and `now` are
absolute times in seconds. -/
def calculatePreload (posts_per_day preload_time start_delay : Nat)
    (midnight now : Int) (fuel : Nat) : Option (Int × Int) :=
  let seconds_between := getSecondsBetweenPosts posts_per_day
  let next_preload : Int := midnight + (start_delay : Int) - (preload_time : Int)
  (advanceLoop seconds_between now fuel next_preload).map
    (fun next => (tdSeconds (next - now), next))

/-- Model of `TelegramBot._calculateNextPost` (telegrambot.py lines 105-129): when
`until_preload` is absent *or zero* (Python falsy), recompute it via
`_calculatePreload`; then return `((until_preload + preload_time).seconds,
now + until_preload + preload_time)`. -/
def calculateNextPost (posts_per_day preload_time start_delay : Nat)
    (midnight now : Int) (fuel : Nat) (until_preload : Option Int) :
    Option (Int × Int) :=
  let up : Option Int :=
    match until_preload with
    | some u => if u = 0 then none else some u
    | none => none
  let up : Option Int :=
    match up with
    | some u => some u
    | none =>
      (calculatePreload posts_per_day preload_time start_delay midnight now fuel).map
        Prod.fst
  up.map (fun u => (tdSeconds (u + (preload_time : Int)), now + u + (preload_time : Int)))

/-- The timer computation of `TelegramBot._setMemesRoutineInterval`
(telegrambot.py lines 273-309): `until_preload, _ = self._calculatePreload()`
then `until_first, _ = self._calculateNextPost(until_preload)`; the two jobs
are then scheduled `until_preload` resp. `until_first` seconds from `now`.
Returns `(until_preload, until_first)`. -/
def setMemesRoutineTimers (posts_per_day preload_time start_delay : Nat)
    (midnight now : Int) (fuel : Nat) : Option (Int × Int) :=
  match calculatePreload posts_per_day preload_time start_delay midnight now fuel with
  | none => none
  | some (until_preload, _) =>
    (calculateNextPost posts_per_day preload_time start_delay midnight now fuel
        (some until_preload)).map
      (fun x => (until_preload, x.1))

/-- Claim C7's termination property for `_calculatePreload`: some finite number
of loop steps makes the advance loop exit, with a result strictly in the
future. -/
def preloadTerminates (posts_per_day preload_time start_delay : Nat)
    (midnight now : Int) : Prop :=
  ∃ fuel u next,
    calculatePreload posts_per_day preload_time start_delay midnight now fuel
        = some (u, next)
      ∧ now < next

/-! ### Concrete scenario data (spec §8, claim C5; witnesses) -/

/-- Candidate A of the spec's scenario: score 10, clean title. -/
def postA : Post :=
  { url := chars "https://a.jpg", id := some (chars "A"), title := chars "ok",
    score := 10 }

/-- Candidate B of the spec's scenario: score 5, title containing `BADWORD`. -/
def postB : Post :=
  { url := chars "https://b.jpg", id := some (chars "B"),
    title := chars "contains BADWORD", score := 5 }

/-- Settings of the scenario: blocklist `["BADWORD"]`, OCR screening on. -/
def scenarioSettings : BotSettings :=
  { words_to_skip := [chars "BADWORD"], hash_threshold := 5, ocr := true,
    max_gif_size := 10 }

/-- Scenario oracles: A's acquisition and fingerprinting succeed. -/
def scenarioEnv : PipelineEnv :=
  { downloadMedia := fun p =>
      if p.url = chars "https://a.jpg" then
        some (chars "/tmp/a.jpg", chars "/tmp/a_preview.jpg")
      else none,
    fingerprintOf := fun p =>
      if p.url = chars "https://a.jpg" then some ([true, false], none) else none,
    gifSize := fun _ => 1,
    isVideo := fun _ => false }

/-- Fresh bot state: empty queue, empty history store, no traced effects. -/
def emptyState : PipelineState := ⟨[], [], [], [], 0⟩

/-- One pass of the preload pipeline on the scenario candidate list `[A, B]`
(already sorted by descending score, as `Reddit.fetch` returns it) against an
empty history store. -/
def scenarioResult : PipelineState :=
  botPreloadmemeRoutine scenarioEnv scenarioSettings [postA, postB] [] [] [] emptyState

/-- An environment where every download and fingerprint succeeds (for the
queue-command witness). -/
def allOkEnv : PipelineEnv :=
  { downloadMedia := fun p => some (chars "/tmp/dl" ++ p.url, chars "/tmp/preview.jpg"),
    fingerprintOf := fun _ => some ([true], none),
    gifSize := fun _ => 1,
    isVideo := fun _ => false }

/-- C1: `_postHashValid` rejects `h` iff some historical hash is at Hamming
distance strictly below `hash_threshold`, and `hash_threshold = 0` accepts
everything. -/
theorem postHashValid_iff_hamming (t : Nat) (H : List ImgHash) (h : ImgHash) :
    (postHashValid t H h = false ↔ ∃ x ∈ H, hammingDistance h x < t)
      ∧ postHashValid 0 H h = true := by
  constructor
  · unfold postHashValid
    split
    · rename_i hc
      simp only [List.any_eq_true, decide_eq_true_eq] at hc
      simpa using hc
    · rename_i hc
      simp only [List.any_eq_true, decide_eq_true_eq] at hc
      simpa using hc
  · unfold postHashValid
    split
    · rename_i hc
      simp only [List.any_eq_true, decide_eq_true_eq] at hc
      omega
    · rfl

/-- C2 counterexample: with blocklist `["bad"]` the text `"BAD"` is accepted by
the code even though `"bad"` is a case-insensitive substring of `"BAD"` — the
claimed case-insensitive rejection does not happen (matching is
case-sensitive). -/
theorem postTextValid_ci_counterexample :
    postTextValid [chars "bad"] (some (chars "BAD")) = true
      ∧ ciSubstr (chars "bad") (chars "BAD") = true := by
  decide

/-- C2 amended: the pipeline rejects a title/caption iff some blocklist term is
a case-SENSITIVE substring of the text; a `None` or empty caption is always
clean. -/
theorem postTextValid_cs_iff (words : List (List Char)) (t : List Char) :
    (titleHasSkipWords words t = true ↔ ∃ w ∈ words, w <:+: t)
      ∧ postTextValid words none = true
      ∧ postTextValid words (some []) = true
      ∧ (postTextValid words (some t) = false ↔ t ≠ [] ∧ ∃ w ∈ words, w <:+: t) := by
  refine ⟨?_, rfl, rfl, ?_⟩
  · simp [titleHasSkipWords, inStr]
  · unfold postTextValid
    by_cases ht : t = []
    · subst ht; simp
    · simp only [List.isEmpty_iff, ht, if_false, ne_eq, not_false_iff, true_and]
      by_cases hw : words.any (fun w => inStr w t)
      · simp only [hw, if_true, true_iff]
        simpa [inStr] using hw
      · simp only [hw, if_false]
        simp only [List.any_eq_true, inStr, decide_eq_true_eq] at hw
        simpa using hw

/-- C3 counterexample: the image opens, hashing succeeds, OCR raises — the
code returns `None` (total failure), not a Fingerprint with a null caption and
the valid hash as the claim states: the `try` block wraps hash and OCR
together. -/
theorem fingerprint_ocr_error_counterexample :
    fingerprint true true (Except.ok [true]) (Except.error ()) [] 0 = none := by
  rfl

/-- C3 amended: for an opened image, an exception in hashing *or* OCR makes
`fingerprint` return `None` — the two sub-results are not independent; the
caption is null exactly when OCR is skipped (`ocr=False`), in which case the
hash is still carried; when both sub-computations succeed the Fingerprint
carries both. -/
theorem fingerprint_error_propagation (hf ocr2 : Bool) (hr : Except Unit ImgHash)
    (ocr_res : Except Unit (List Char)) (v : ImgHash) (c url : List Char) (ts : Nat) :
    fingerprint hf true hr (Except.error ()) url ts = none
      ∧ fingerprint true ocr2 (Except.error ()) ocr_res url ts = none
      ∧ fingerprint true false (Except.ok v) ocr_res url ts
          = some ⟨none, some v, url, ts⟩
      ∧ fingerprint true true (Except.ok v) (Except.ok c) url ts
          = some ⟨some (cleanText c), some v, url, ts⟩ := by
  refine ⟨?_, ?_, ?_, ?_⟩
  · cases hf <;> cases hr <;> rfl
  · cases ocr2 <;> rfl
  · rfl
  · rfl

/-- C4: when the queue already holds at least one item, the preload routine
returns the state unchanged — no fetch, no history write, queue untouched —
and hence any number of repeated calls while the queue is occupied leaves the
state (in particular the queue length) unchanged. -/
theorem preload_noop_when_queue_occupied (env : PipelineEnv) (st : BotSettings)
    (fetched : List Post) (old_ids : List (Option (List Char)))
    (old_urls : List (List Char)) (old_hashes : List ImgHash) (p : Post)
    (q dbp : List Post) (dbf : List (ImgHash × Option (List Char)))
    (dl : List Post) (fc n : Nat) :
    botPreloadmemeRoutine env st fetched old_ids old_urls old_hashes
        ⟨p :: q, dbp, dbf, dl, fc⟩ = ⟨p :: q, dbp, dbf, dl, fc⟩
      ∧ (fun s => botPreloadmemeRoutine env st fetched old_ids old_urls old_hashes s)^[n]
          ⟨p :: q, dbp, dbf, dl, fc⟩ = ⟨p :: q, dbp, dbf, dl, fc⟩ := by
  have h1 : botPreloadmemeRoutine env st fetched old_ids old_urls old_hashes
      ⟨p :: q, dbp, dbf, dl, fc⟩ = ⟨p :: q, dbp, dbf, dl, fc⟩ := by
    unfold botPreloadmemeRoutine
    simp
  refine ⟨h1, ?_⟩
  induction n with
  | zero => rfl
  | succ k ih => rw [Function.iterate_succ_apply, h1, ih]

/-- C5 counterexample: in the spec scenario, candidate B is *never recorded* in
the history store (the claim says one pass records both A and B): A is ranked
first, is accepted, and the loop `break`s before ever examining B. -/
theorem preload_scenario_counterexample : ¬ postB ∈ scenarioResult.db_posts := by
  decide

/-- C5 amended: on `[A(score=10), B(score=5,title with BADWORD)]` with
blocklist `["BADWORD"]` and empty history, the pass records only A (and A's
fingerprint), accepts A and ends with exactly A (path set) in the queue; B is
never examined — not recorded, not title-rejected, not downloaded. -/
theorem preload_scenario_accepts_A :
    scenarioResult.queue = [{ postA with path := some (chars "/tmp/a.jpg") }]
      ∧ scenarioResult.db_posts = [postA]
      ∧ scenarioResult.db_fingerprints = [([true, false], none)]
      ∧ scenarioResult.downloads = [postA]
      ∧ ¬ postB ∈ scenarioResult.downloads := by
  decide

/-- The candidate-loop body touches the download trace and the post records
only by appending copies of the post being examined. -/
lemma checkPost_trace (env : PipelineEnv) (st : BotSettings) (oh : List ImgHash)
    (s : PipelineState) (post : Post) :
    ∃ dl db, (checkPost env st oh s post).1.downloads = s.downloads ++ dl
      ∧ (checkPost env st oh s post).1.db_posts = s.db_posts ++ db
      ∧ (∀ p ∈ dl, p = post) ∧ (∀ p ∈ db, p = post) := by
  unfold checkPost
  dsimp only
  split
  · exact ⟨[], [post], by simp, by simp, by simp, by simp⟩
  split
  · exact ⟨[], [post], by simp, by simp, by simp, by simp⟩
  split
  · exact ⟨[post], [post], by simp, by simp, by simp, by simp⟩
  split
  · exact ⟨[post], [post], by simp, by simp, by simp, by simp⟩
  split
  · exact ⟨[post], [post], by simp, by simp, by simp, by simp⟩
  split
  · exact ⟨[post], [post], by simp, by simp, by simp, by simp⟩
  · exact ⟨[post], [post], by simp, by simp, by simp, by simp⟩

/-- The candidate loop only downloads and records posts taken from its input
list. -/
lemma processPosts_trace (env : PipelineEnv) (st : BotSettings) (oh : List ImgHash)
    (l : List Post) : ∀ s : PipelineState,
    ∃ dl db, (processPosts env st oh l s).downloads = s.downloads ++ dl
      ∧ (processPosts env st oh l s).db_posts = s.db_posts ++ db
      ∧ (∀ p ∈ dl, p ∈ l) ∧ (∀ p ∈ db, p ∈ l) := by
  induction l with
  | nil =>
    intro s
    exact ⟨[], [], by simp [processPosts], by simp [processPosts], by simp, by simp⟩
  | cons p rest ih =>
    intro s
    obtain ⟨dl1, db1, h1, h2, h3, h4⟩ := checkPost_trace env st oh s p
    simp only [processPosts]
    cases hcp : checkPost env st oh s p with
    | mk s' b =>
      rw [hcp] at h1 h2
      cases b with
      | true =>
        refine ⟨dl1, db1, h1, h2, ?_, ?_⟩
        · exact fun q hq => by simp [h3 q hq]
        · exact fun q hq => by simp [h4 q hq]
      | false =>
        obtain ⟨dl2, db2, g1, g2, g3, g4⟩ := ih s'
        refine ⟨dl1 ++ dl2, db1 ++ db2, ?_, ?_, ?_, ?_⟩
        · rw [g1, h1, List.append_assoc]
        · rw [g2, h2, List.append_assoc]
        · intro q hq
          rcases List.mem_append.mp hq with hq1 | hq2
          · simp [h3 q hq1]
          · simp [g3 q hq2]
        · intro q hq
          rcases List.mem_append.mp hq with hq1 | hq2
          · simp [h4 q hq1]
          · simp [g4 q hq2]

/-- C9: in every preload pass, every post handed to the media downloader and
every post newly recorded in the history store passed the identity pre-filter:
its id is not among the stored ids and its url is not among the stored urls. -/
theorem preload_identity_prefilter (env : PipelineEnv) (st : BotSettings)
    (fetched : List Post) (old_ids : List (Option (List Char)))
    (old_urls : List (List Char)) (old_hashes : List ImgHash) (s : PipelineState) :
    (((botPreloadmemeRoutine env st fetched old_ids old_urls old_hashes s).downloads).drop
          s.downloads.length).all
        (fun p => !old_ids.contains p.id && !old_urls.contains p.url) = true
      ∧ (((botPreloadmemeRoutine env st fetched old_ids old_urls old_hashes s).db_posts).drop
          s.db_posts.length).all
        (fun p => !old_ids.contains p.id && !old_urls.contains p.url) = true := by
  unfold botPreloadmemeRoutine
  split
  · constructor <;> simp
  · obtain ⟨dl, db, h1, h2, h3, h4⟩ :=
      processPosts_trace env st old_hashes (filterOldPosts old_ids old_urls fetched)
        { s with fetch_count := s.fetch_count + 1 }
    constructor
    · rw [h1]
      simp only [List.drop_left]
      rw [List.all_eq_true]
      intro p hp
      have := (List.mem_filter.mp (h3 p hp)).2
      simpa using this
    · rw [h2]
      simp only [List.drop_left]
      rw [List.all_eq_true]
      intro p hp
      have := (List.mem_filter.mp (h4 p hp)).2
      simpa using this

/-- When every url argument downloads and fingerprints successfully, the
queue-command loop appends one post per url and counts each one. -/
lemma queueCommand_all_ok (env : PipelineEnv) : ∀ (args : List (List Char))
    (s : PipelineState),
    args.all (fun u =>
        (env.downloadMedia { url := u, video := env.isVideo u }).isSome
          && (env.fingerprintOf { url := u, video := env.isVideo u }).isSome) = true →
    (botQueueCommand env args s).1.queue.length = s.queue.length + args.length
      ∧ (botQueueCommand env args s).2 = args.length := by
  intro args
  induction args with
  | nil => intro s _; simp [botQueueCommand]
  | cons u rest ih =>
    intro s h
    simp only [List.all_cons, Bool.and_eq_true] at h
    obtain ⟨⟨hdown, hfp⟩, htail⟩ := h
    rcases hd : env.downloadMedia { url := u, video := env.isVideo u } with _ | ⟨pp, pv⟩
    · rw [hd] at hdown; simp at hdown
    rcases hf : env.fingerprintOf { url := u, video := env.isVideo u } with _ | ⟨fh, fc⟩
    · rw [hf] at hfp; simp at hfp
    have hstep : queueCommandStep env s u
        = ({ s with
              db_posts := s.db_posts
                ++ [{ url := u, video := env.isVideo u, path := some pp }],
              db_fingerprints := s.db_fingerprints ++ [(fh, fc)],
              downloads := s.downloads ++ [{ url := u, video := env.isVideo u }],
              queue := s.queue
                ++ [{ url := u, video := env.isVideo u, path := some pp }] }, 1) := by
      unfold queueCommandStep
      simp only [hd, hf]
    obtain ⟨hr1, hr2⟩ := ih (queueCommandStep env s u).1 htail
    rw [hstep] at hr1 hr2
    constructor
    · simp only [botQueueCommand, hstep]
      rw [hr1]
      simp only [List.length_append, List.length_cons, List.length_nil]
      omega
    · simp only [botQueueCommand, hstep]
      rw [hr2]
      simp only [List.length_cons]
      omega

/-- C10: at the admin interface the queue is an unbounded FIFO: one queue
command whose `n` url arguments all download and fingerprint successfully
appends `n` items to the queue (so the queue can exceed one item), and the
publish routine removes exactly the head (oldest) item, handing that item's
local media path to `deleteFile` after sending. -/
theorem queueCommand_fifo (env : PipelineEnv) (s : PipelineState)
    (args : List (List Char)) (post : Post) (rest : List Post)
    (h : args.all (fun u =>
        (env.downloadMedia { url := u, video := env.isVideo u }).isSome
          && (env.fingerprintOf { url := u, video := env.isVideo u }).isSome) = true) :
    (botQueueCommand env args s).1.queue.length = s.queue.length + args.length
      ∧ (botQueueCommand env args s).2 = args.length
      ∧ botSendmemeRoutine (post :: rest) = (rest, some post, post.path) := by
  obtain ⟨h1, h2⟩ := queueCommand_all_ok env args s h
  exact ⟨h1, h2, rfl⟩

/-- Witness for `queueCommand_fifo`: two successfully-downloading urls on an
empty queue yield a queue of length 2, and the send routine pops the head. -/
theorem queueCommand_fifo_witness :
    ([chars "u1", chars "u2"].all (fun u =>
        (allOkEnv.downloadMedia { url := u, video := allOkEnv.isVideo u }).isSome
          && (allOkEnv.fingerprintOf { url := u, video := allOkEnv.isVideo u }).isSome)
        = true)
      ∧ ((botQueueCommand allOkEnv [chars "u1", chars "u2"] emptyState).1.queue.length
            = emptyState.queue.length + 2
          ∧ (botQueueCommand allOkEnv [chars "u1", chars "u2"] emptyState).2 = 2
          ∧ botSendmemeRoutine (postA :: []) = ([], some postA, postA.path)) :=
  ⟨by decide,
    queueCommand_fifo allOkEnv emptyState [chars "u1", chars "u2"] postA [] (by decide)⟩

/-- Whatever the timer computation returns, the preload delay is some value
reduced mod 86400 and the publish delay is `(preload delay + preload_time)`
reduced mod 86400 (the `timedelta.seconds` truncation in `_calculateNextPost`). -/
lemma setMemesRoutineTimers_shape (ppd pt sd : Nat) (midnight now : Int) (fuel : Nat)
    (u f : Int) (h : setMemesRoutineTimers ppd pt sd midnight now fuel = some (u, f)) :
    (∃ x : Int, u = x % 86400) ∧ f = (u + (pt : Int)) % 86400 := by
  unfold setMemesRoutineTimers at h
  cases hcp : calculatePreload ppd pt sd midnight now fuel with
  | none => rw [hcp] at h; simp at h
  | some pr =>
    obtain ⟨u0, nxt⟩ := pr
    rw [hcp] at h
    have hu0 : ∃ x : Int, u0 = x % 86400 := by
      unfold calculatePreload at hcp
      cases hal : advanceLoop (getSecondsBetweenPosts ppd) now fuel
          (midnight + (sd : Int) - (pt : Int)) with
      | none => simp [hal] at hcp
      | some nxt2 =>
        simp only [hal, Option.map_some', tdSeconds, Option.some.injEq,
          Prod.mk.injEq] at hcp
        exact ⟨nxt2 - now, hcp.1.symm⟩
    unfold calculateNextPost at h
    by_cases h0 : u0 = 0
    · simp only [h0, if_pos, hcp, Option.map_some', tdSeconds] at h
      simp only [Option.some.injEq, Prod.mk.injEq] at h
      obtain ⟨hu, hf⟩ := h
      refine ⟨⟨0, by omega⟩, by omega⟩
    · simp only [if_neg h0, hcp, Option.map_some', tdSeconds] at h
      simp only [Option.some.injEq, Prod.mk.injEq] at h
      obtain ⟨hu, hf⟩ := h
      subst hu
      exact ⟨hu0, hf.symm⟩

/-- C6 amended: after a timer (re)computation, the scheduled publish instant
minus the scheduled preload instant equals the configured `preload_time` *iff*
`until_preload + preload_time < 86400`: `_calculateNextPost` takes
`timedelta.seconds`, which truncates mod one day, so when the preload delay
plus the lead crosses the 24h mark the difference is `preload_time - 86400`
instead. -/
theorem timers_preload_lead (ppd pt sd : Nat) (midnight now : Int) (fuel : Nat)
    (u f : Int) (h : setMemesRoutineTimers ppd pt sd midnight now fuel = some (u, f)) :
    ((now + f) - (now + u) = (pt : Int)) ↔ u + (pt : Int) < 86400 := by
  obtain ⟨⟨x, hu⟩, hf⟩ := setMemesRoutineTimers_shape ppd pt sd midnight now fuel u f h
  have hpt : (0 : Int) ≤ (pt : Int) := Int.natCast_nonneg pt
  omega

/-- Witness for `timers_preload_lead`: 24 posts/day, 300 s preload lead,
evaluated at midnight — the timers are 3300 s (preload) and 3600 s (publish)
and the difference is exactly the lead. -/
theorem timers_preload_lead_witness :
    setMemesRoutineTimers 24 300 0 0 0 5 = some (3300, 3600)
      ∧ ((((0 : Int) + 3600) - ((0 : Int) + 3300) = ((300 : Nat) : Int))
          ↔ (3300 : Int) + ((300 : Nat) : Int) < 86400) :=
  ⟨by decide, timers_preload_lead 24 300 0 0 0 5 3300 3600 (by decide)⟩

/-- C6 counterexample: `posts_per_day = 1`, `preload_time = 500`,
`start_delay = 0`, current time 86341 s after midnight (23:59:01). The
computation yields `until_preload = 85959` but `until_first = 59` (the sum
86459 was truncated by `timedelta.seconds`), so publish minus preload is
`-85900`, not the 500 s lead the claim asserts for every configuration and
time. -/
theorem timers_preload_lead_counterexample :
    setMemesRoutineTimers 1 500 0 0 86341 10 = some (85959, 59)
      ∧ ¬ (((86341 : Int) + 59) - ((86341 : Int) + 85959) = ((500 : Nat) : Int)) := by
  exact ⟨by decide, by decide⟩

/-- With a positive step, the advance loop exits once the fuel exceeds the
distance to `now`, and the exit value is strictly past `now`. -/
lemma advanceLoop_some (sb : Nat) (now : Int) (hsb : 1 ≤ sb) :
    ∀ (fuel : Nat) (next : Int),
    ((now - next).toNat + 2 ≤ fuel ∨ (now < next ∧ 1 ≤ fuel)) →
    ∃ r, advanceLoop sb now fuel next = some r ∧ now < r := by
  intro fuel
  induction fuel with
  | zero =>
    intro next h
    exfalso
    rcases h with h | ⟨h1, h2⟩ <;> omega
  | succ k ih =>
    intro next h
    unfold advanceLoop
    split
    · rename_i hle
      exact ih (next + sb) (by omega)
    · rename_i hgt
      exact ⟨next, rfl, by omega⟩

/-- With step 0 (i.e. `posts_per_day > 86400`) and a start not in the future,
the advance loop never exits, whatever the fuel. -/
lemma advanceLoop_zero_stuck (now : Int) : ∀ (fuel : Nat) (next : Int),
    next ≤ now → advanceLoop 0 now fuel next = none := by
  intro fuel
  induction fuel with
  | zero => intro next _; rfl
  | succ k ih =>
    intro next h
    unfold advanceLoop
    rw [if_pos h]
    exact ih (next + ((0 : Nat) : Int)) (by omega)

/-- C7 amended: for every configuration with `0 < posts_per_day ≤ 86400` (so
that `seconds_between ≥ 1`) and any `start_delay`, `preload_time`, current
time and midnight, `_calculatePreload`'s advance loop terminates and the
returned preload instant is strictly in the future. (For
`posts_per_day > 86400` the integer step is 0 and the loop never exits —
see the counterexample.) -/
theorem calculatePreload_terminates (ppd pt sd : Nat) (midnight now : Int)
    (h1 : 0 < ppd) (h2 : ppd ≤ 86400) :
    preloadTerminates ppd pt sd midnight now := by
  have hsb : 1 ≤ getSecondsBetweenPosts ppd := by
    unfold getSecondsBetweenPosts
    exact (Nat.one_le_div_iff h1).mpr h2
  obtain ⟨r, hr, hlt⟩ := advanceLoop_some (getSecondsBetweenPosts ppd) now hsb
    ((now - (midnight + (sd : Int) - (pt : Int))).toNat + 2)
    (midnight + (sd : Int) - (pt : Int)) (by omega)
  exact ⟨(now - (midnight + (sd : Int) - (pt : Int))).toNat + 2,
    tdSeconds (r - now), r, by simp [calculatePreload, hr, tdSeconds], hlt⟩

/-- Witness for `calculatePreload_terminates`: 24 posts/day at midnight. -/
theorem calculatePreload_terminates_witness :
    0 < 24 ∧ 24 ≤ 86400 ∧ preloadTerminates 24 300 0 0 0 :=
  ⟨by decide, by decide, calculatePreload_terminates 24 300 0 0 0 (by decide) (by decide)⟩

/-- C7 counterexample: `posts_per_day = 86401` is an integer strictly greater
than 0, yet `seconds_between = int(86400 / 86401) = 0`, and at midnight (start
instant not in the future) the `while next_preload <= now` loop of
`_calculatePreload` never terminates: no amount of fuel makes it exit. -/
theorem preloadTerminates_counterexample : ¬ preloadTerminates 86401 0 0 0 0 := by
  rintro ⟨fuel, u, next, h, _⟩
  have hsb : getSecondsBetweenPosts 86401 = 0 := by decide
  unfold calculatePreload at h
  simp only [hsb] at h
  rw [advanceLoop_zero_stuck 0 fuel ((0 : Int) + ((0 : Nat) : Int) - ((0 : Nat) : Int))
    (by norm_num)] at h
  simp at h

/-- The step `replace("  ", " ")` never lengthens the string. -/
lemma rds_length_le : ∀ s : List Char, (replaceDoubleSpace s).length ≤ s.length
  | [] => by simp [replaceDoubleSpace]
  | [c] => by simp [replaceDoubleSpace]
  | c1 :: c2 :: rest => by
    unfold replaceDoubleSpace
    split
    · have := rds_length_le rest
      simp only [List.length_cons]
      omega
    · have := rds_length_le (c2 :: rest)
      simp only [List.length_cons] at this ⊢
      omega

/-- The step `replace("  ", " ")` strictly shortens a string containing `"  "`. -/
lemma rds_length_lt : ∀ s : List Char, hasDoubleSpace s = true →
    (replaceDoubleSpace s).length < s.length
  | [] => by intro h; simp [hasDoubleSpace] at h
  | [c] => by intro h; simp [hasDoubleSpace] at h
  | c1 :: c2 :: rest => by
    intro h
    unfold replaceDoubleSpace
    split
    · rename_i hsp
      have := rds_length_le rest
      simp only [List.length_cons]
      omega
    · rename_i hsp
      have h2 : hasDoubleSpace (c2 :: rest) = true := by
        unfold hasDoubleSpace at h
        simp only [Bool.or_eq_true] at h
        rcases h with h | h
        · exact absurd h hsp
        · exact h
      have := rds_length_lt (c2 :: rest) h2
      simp only [List.length_cons] at this ⊢
      omega

/-- Every character of `replace("  ", " ")`'s output is a character of the
input or a space. -/
lemma rds_mem : ∀ (s : List Char) (c : Char), c ∈ replaceDoubleSpace s →
    c ∈ s ∨ c = ' '
  | [], c => by simp [replaceDoubleSpace]
  | [d], c => by
    intro h
    simp [replaceDoubleSpace] at h
    simp [h]
  | c1 :: c2 :: rest, c => by
    intro h
    unfold replaceDoubleSpace at h
    split at h
    · rcases List.mem_cons.mp h with h | h
      · exact Or.inr h
      · rcases rds_mem rest c h with h | h
        · exact Or.inl (by simp [h])
        · exact Or.inr h
    · rcases List.mem_cons.mp h with h | h
      · exact Or.inl (by simp [h])
      · rcases rds_mem (c2 :: rest) c h with h | h
        · exact Or.inl (List.mem_cons_of_mem c1 h)
        · exact Or.inr h

/-- Every character of `replace(old, " ")`'s output is a character of the
input or a space. -/
lemma mem_replaceChar (old c : Char) (s : List Char) (h : c ∈ replaceChar old s) :
    c ∈ s ∨ c = ' ' := by
  obtain ⟨d, hd, hdc⟩ := List.mem_map.mp h
  by_cases hdo : d = old
  · rw [if_pos hdo] at hdc
    exact Or.inr hdc.symm
  · rw [if_neg hdo] at hdc
    subst hdc
    exact Or.inl hd

/-- After `replace(old, " ")` the character `old` (itself not a space) is
gone. -/
lemma not_mem_replaceChar (old : Char) (ho : ¬ old = ' ') (s : List Char) :
    ¬ old ∈ replaceChar old s := by
  intro h
  obtain ⟨d, hd, hdc⟩ := List.mem_map.mp h
  by_cases hdo : d = old
  · rw [if_pos hdo] at hdc
    exact ho hdc.symm
  · rw [if_neg hdo] at hdc
    exact hdo hdc

/-- One replacement pass leaves no `'\n'`. -/
lemma count_newline_cleanPass (s : List Char) : (cleanPass s).count '\n' = 0 := by
  rw [List.count_eq_zero]
  intro hmem
  unfold cleanPass at hmem
  obtain ⟨d, hd, hdc⟩ := List.mem_map.mp hmem
  by_cases hdt : d = '\t'
  · rw [if_pos hdt] at hdc
    exact absurd hdc (by decide)
  · rw [if_neg hdt] at hdc
    subst hdc
    exact not_mem_replaceChar '\n' (by decide) _ hd

/-- One replacement pass leaves no `'\t'`. -/
lemma count_tab_cleanPass (s : List Char) : (cleanPass s).count '\t' = 0 := by
  rw [List.count_eq_zero]
  intro hmem
  unfold cleanPass at hmem
  exact not_mem_replaceChar '\t' (by decide) _ hmem

/-- The single-character replacements preserve length, so a pass is as long as
its double-space replacement. -/
lemma length_cleanPass (s : List Char) :
    (cleanPass s).length = (replaceDoubleSpace s).length := by
  simp [cleanPass, replaceChar]

/-- Each pass on a string still matching the loop guard strictly decreases the
termination measure. -/
lemma cleanMeasure_cleanPass_lt (s : List Char) (h : cleanGuard s = true) :
    cleanMeasure (cleanPass s) < cleanMeasure s := by
  have hm : cleanMeasure (cleanPass s) = (replaceDoubleSpace s).length := by
    unfold cleanMeasure
    rw [length_cleanPass, count_newline_cleanPass, count_tab_cleanPass]
    omega
  rw [hm]
  unfold cleanMeasure
  unfold cleanGuard at h
  simp only [Bool.or_eq_true] at h
  rcases h with (h | h) | h
  · have := rds_length_lt s h
    omega
  · have hmem : '\n' ∈ s := by simpa using h
    have h1 := List.count_pos_iff.mpr hmem
    have h2 := rds_length_le s
    omega
  · have hmem : '\t' ∈ s := by simpa using h
    have h1 := List.count_pos_iff.mpr hmem
    have h2 := rds_length_le s
    omega

/-- Exactly `cleanMeasure s + 1` units of fuel are enough for the replacement loop to
reach its exit condition: no `"  "`, `'\n'` or `'\t'` remains. -/
lemma cleanGuard_cleanLoop : ∀ (fuel : Nat) (s : List Char), cleanMeasure s < fuel →
    cleanGuard (cleanLoop fuel s) = false
  | 0, s => by intro h; omega
  | fuel + 1, s => by
    intro h
    unfold cleanLoop
    split
    · rename_i hg
      exact cleanGuard_cleanLoop fuel (cleanPass s)
        (by have := cleanMeasure_cleanPass_lt s hg; omega)
    · rename_i hg
      simpa using hg

/-- Every character surviving a pass comes from the input or is a space. -/
lemma cleanPass_mem (s : List Char) (c : Char) (h : c ∈ cleanPass s) :
    c ∈ s ∨ c = ' ' := by
  unfold cleanPass at h
  rcases mem_replaceChar _ _ _ h with h | h
  · rcases mem_replaceChar _ _ _ h with h | h
    · exact rds_mem s c h
    · exact Or.inr h
  · exact Or.inr h

/-- Every character surviving the replacement loop comes from the input or is
a space. -/
lemma cleanLoop_mem : ∀ (fuel : Nat) (s : List Char) (c : Char),
    c ∈ cleanLoop fuel s → c ∈ s ∨ c = ' '
  | 0, s, c => fun h => Or.inl h
  | fuel + 1, s, c => by
    intro h
    unfold cleanLoop at h
    split at h
    · rcases cleanLoop_mem fuel (cleanPass s) c h with h | h
      · exact cleanPass_mem s c h
      · exact Or.inr h
    · exact Or.inl h

/-- Applying `Char.ofNat` to a scalar value below the surrogate range keeps its code
point. -/
lemma charOfNat_toNat (m : Nat) (h : m < 55296) : (Char.ofNat m).toNat = m := by
  have hv : m.isValidChar := Or.inl h
  rw [Char.ofNat, dif_pos hv]
  simp [Char.ofNatAux, Char.toNat, UInt32.toNat]

/-- ASCII lowering never yields an ASCII uppercase letter. -/
lemma toLower_not_upper (c : Char) :
    ¬ (65 ≤ (Char.toLower c).toNat ∧ (Char.toLower c).toNat ≤ 90) := by
  unfold Char.toLower
  by_cases hc : Char.toNat c ≥ 65 ∧ Char.toNat c ≤ 90
  · rw [if_pos hc]
    rw [charOfNat_toNat (Char.toNat c + 32) (by omega)]
    omega
  · rw [if_neg hc]
    omega

/-- C8 counterexample: `_cleanText` on `"a\r\rb"` returns `"a\r\rb"` unchanged
— `'\r'` is whitespace but is neither in the replacement set `{"  ", "\n",
"\t"}` nor stripped from the interior, and it is in `string.printable` — so
the output contains a run of two consecutive whitespace characters, which the
claim says never happens. -/
theorem cleanText_whitespace_run_counterexample :
    cleanText (chars "a\r\rb") = chars "a\r\rb"
      ∧ hasWhitespaceRun (cleanText (chars "a\r\rb")) = true := by
  decide

/-- C8 amended: the output of `_cleanText` is entirely lower-cased (no ASCII
uppercase; non-ASCII is removed), contains only `string.printable` characters,
and contains no newline and no tab; the empty string is a possible output. But
whitespace is *not* fully collapsed: carriage returns and vertical whitespace
survive (also in runs), and removing a non-printable character can rejoin two
spaces. -/
theorem cleanText_properties (text : List Char) :
    (cleanText text).all pyPrintable = true
      ∧ ¬ '\n' ∈ cleanText text
      ∧ ¬ '\t' ∈ cleanText text
      ∧ (∀ c ∈ cleanText text, ¬ (65 ≤ c.toNat ∧ c.toNat ≤ 90))
      ∧ cleanText [] = [] := by
  have hdef : cleanText text
      = (cleanLoop (cleanMeasure ((pyStrip text).map Char.toLower) + 1)
          ((pyStrip text).map Char.toLower)).filter pyPrintable := rfl
  have hguard : cleanGuard
      (cleanLoop (cleanMeasure ((pyStrip text).map Char.toLower) + 1)
        ((pyStrip text).map Char.toLower)) = false :=
    cleanGuard_cleanLoop _ _ (by omega)
  unfold cleanGuard at hguard
  simp only [Bool.or_eq_false_iff] at hguard
  refine ⟨?_, ?_, ?_, ?_, rfl⟩
  · rw [List.all_eq_true, hdef]
    intro c hc
    exact (List.mem_filter.mp hc).2
  · intro hmem
    rw [hdef] at hmem
    have h1 := (List.mem_filter.mp hmem).1
    have h2 : List.elem '\n'
        (cleanLoop (cleanMeasure ((pyStrip text).map Char.toLower) + 1)
          ((pyStrip text).map Char.toLower)) = false := hguard.1.2
    rw [List.elem_iff.mpr h1] at h2
    simp at h2
  · intro hmem
    rw [hdef] at hmem
    have h1 := (List.mem_filter.mp hmem).1
    have h2 : List.elem '\t'
        (cleanLoop (cleanMeasure ((pyStrip text).map Char.toLower) + 1)
          ((pyStrip text).map Char.toLower)) = false := hguard.2
    rw [List.elem_iff.mpr h1] at h2
    simp at h2
  · intro c hc
    rw [hdef] at hc
    have h1 := (List.mem_filter.mp hc).1
    rcases cleanLoop_mem _ _ _ h1 with h | h
    · obtain ⟨d, _, hdc⟩ := List.mem_map.mp h
      rw [← hdc]
      exact toLower_not_upper d
    · subst h
      decide
